import Mathlib

/-!
Verification of the announcement-stream reconciliation and issue-correlation
engine of the sr-visualizer repository.  The definitions below are shallow
embeddings of the JavaScript source: `getElementCategory`, `analyzeContainer`
and `analyzeContainerSimple` from `sr-visualizer.js`, and
`detectPotentialIssues` / `scanContainerForIssues` from `issue-detector.js`.
The DOM is modelled as a tree of element and text nodes; the external virtual
screen reader is modelled as a `Narrator` supplying a phrase per iteration
together with failure schedules for each of its capabilities.
-/

namespace SRV

/-- DOM node: element (tag, attributes, children) or text node.
Tags are stored lower-case, as CSS selector matching is case-insensitive
for tag names in HTML. -/
inductive Node where
  | elem (tag : String) (attrs : List (String × String)) (children : List Node)
  | text (s : String)
deriving Repr

/-- Tag name of a node (text nodes have none). -/
def tagOf : Node → String
  | .elem t _ _ => t
  | .text _ => ""

/-- `getAttribute`: first binding of the attribute, if present. -/
def getAttr (n : Node) (name : String) : Option String :=
  match n with
  | .text _ => none
  | .elem _ attrs _ => (attrs.find? (fun p => p.1 = name)).map (·.2)

/-- `hasAttribute`. -/
def hasAttr (n : Node) (name : String) : Bool :=
  (getAttr n name).isSome

/-- Attribute value coerced to a string the way JavaScript truthiness sees it:
a missing attribute (`null`) and an empty value are both falsy, so both map
to the empty string. -/
def attrOr (n : Node) (name : String) : String :=
  (getAttr n name).getD ""

mutual

/-- `textContent` of a node: concatenation of all descendant text. -/
def textContent : Node → String
  | .text s => s
  | .elem _ _ cs => textContentList cs

/-- `textContent` of a forest, in order. -/
def textContentList : List Node → String
  | [] => ""
  | n :: ns => textContent n ++ textContentList ns

end

mutual

/-- All element nodes of a subtree in document (preorder) order, each paired
with its ancestor chain (nearest ancestor first). -/
def subtreeElems (anc : List Node) : Node → List (Node × List Node)
  | .text _ => []
  | .elem t a cs => (.elem t a cs, anc) :: subtreeElemsList (.elem t a cs :: anc) cs

/-- Preorder element listing of a forest. -/
def subtreeElemsList (anc : List Node) : List Node → List (Node × List Node)
  | [] => []
  | n :: ns => subtreeElems anc n ++ subtreeElemsList anc ns

end

/-- `querySelectorAll` with ancestor chains: all element descendants of the
container (the container itself excluded, as in the DOM API) matching the
predicate, in document order.  Ancestor chains stop at the container. -/
def queryAllA (container : Node) (p : Node → Bool) : List (Node × List Node) :=
  match container with
  | .text _ => []
  | .elem t a cs => (subtreeElemsList [.elem t a cs] cs).filter (fun x => p x.1)

/-- `querySelectorAll`: matching descendants only. -/
def queryAll (container : Node) (p : Node → Bool) : List Node :=
  (queryAllA container p).map (·.1)

/-- `querySelector`: first matching descendant, if any. -/
def querySel (container : Node) (p : Node → Bool) : Option Node :=
  (queryAll container p).head?

/-- `el.closest('label')`: the element itself or its nearest ancestor that is
a `label`, searched within the modelled tree. -/
def closestLabel (ea : Node × List Node) : Option Node :=
  (ea.1 :: ea.2).find? (fun n => tagOf n = "label")

/-- One spoken announcement: `index` in discovery order, the exact phrase,
its derived category, and an optional source-element back-reference
(populated by the direct scan, absent in traverser output). -/
structure AnnouncementRecord where
  index : Nat
  announcement : String
  category : String
  element : Option Node
deriving Repr

/-- One detected accessibility issue. -/
structure Issue where
  type : String
  description : String
  severity : String
  announcement : Option String
  element : Option Node
deriving Repr

/-- Substring test on character lists: `p` occurs as a prefix of `s`. -/
def listPrefix : List Char → List Char → Bool
  | [], _ => true
  | _ :: _, [] => false
  | a :: as, b :: bs => a = b && listPrefix as bs

/-- Substring test on character lists: `p` occurs contiguously inside `s`. -/
def listInfixB (p : List Char) : List Char → Bool
  | [] => listPrefix p []
  | c :: rest => listPrefix p (c :: rest) || listInfixB p rest

/-- JavaScript `s.includes(p)`: contiguous substring containment. -/
def strIncludes (s p : String) : Bool :=
  listInfixB p.data s.data

/-- JavaScript `s.toLowerCase()` (character-wise, ASCII range). -/
def strToLower (s : String) : String :=
  ⟨s.data.map Char.toLower⟩

/-- Whitespace as recognised by JavaScript `trim`, ASCII range. -/
def isWsChar (c : Char) : Bool :=
  c = ' ' || c = '\t' || c = '\n' || c = '\r' || c = '\x0c' || c = '\x0b'

/-- JavaScript `s.trim()`: strip whitespace from both ends. -/
def strTrim (s : String) : String :=
  ⟨((s.data.dropWhile isWsChar).reverse.dropWhile isWsChar).reverse⟩

/-- JavaScript `a || b` on strings: the empty string is falsy. -/
def jsOr (a b : String) : String :=
  if a = "" then b else a

/-- The landmark patterns of `CATEGORY_PATTERNS`. -/
def landmarkPatterns : List String :=
  ["navigation", "banner", "main", "contentinfo", "region",
   "complementary", "search", "article", "document"]

/-- The heading patterns of `CATEGORY_PATTERNS`. -/
def headingPatterns : List String :=
  ["heading"]

/-- The interactive patterns of `CATEGORY_PATTERNS`. -/
def interactivePatterns : List String :=
  ["button", "link", "menu", "image", "img", "graphic"]

/-- The form patterns of `CATEGORY_PATTERNS`. -/
def formPatterns : List String :=
  ["textbox", "checkbox", "radio", "combobox", "listbox",
   "spinbutton", "slider", "switch", "group", "form"]

/-- The category pattern table (`CATEGORY_PATTERNS`), in source order:
landmark, heading, interactive, form. -/
def CATEGORY_PATTERNS : List (String × List String) :=
  [("landmark", landmarkPatterns),
   ("heading", headingPatterns),
   ("interactive", interactivePatterns),
   ("form", formPatterns)]

/-- `getElementCategory`: lower-case the phrase, return the first category in
table order one of whose patterns occurs inside it, else `content`. -/
def getElementCategory (announcement : String) : String :=
  let lower := strToLower announcement
  match CATEGORY_PATTERNS.find? (fun cp => cp.2.any (fun p => strIncludes lower p)) with
  | some cp => cp.1
  | none => "content"

/-- Model of the external virtual-screen-reader narrator: the phrase returned
by `lastSpokenPhrase` at each loop iteration together with failure schedules
for `start`, `lastSpokenPhrase`, `next` and `stop`. -/
structure Narrator where
  startFails : Bool
  phrase : Nat → String
  phraseFails : Nat → Bool
  nextFails : Nat → Bool
  stopFails : Bool

/-- The filter applied to each phrase in `analyzeContainer`:
`phrase && !seen.has(phrase) && phrase !== 'document' && !phrase.startsWith('end of ')`. -/
def keepPhrase (seen : List String) (p : String) : Bool :=
  p ≠ "" && !(seen.contains p) && p ≠ "document" && !(listPrefix "end of ".data p.data)

/-- Record constructed at insertion in `analyzeContainer`: index is the
current result count; no source element is attached. -/
def mkRecord (n : Nat) (p : String) : AnnouncementRecord :=
  ⟨n, p, getElementCategory p, none⟩

/-- Result of the traversal loop: records collected, completed iterations
(the final `safetyCounter`), and whether a narrator failure was raised. -/
structure LoopResult where
  records : List AnnouncementRecord
  completed : Nat
  errored : Bool
deriving Repr

/-- The `while (safetyCounter < maxIterations)` loop of `analyzeContainer`:
read the last spoken phrase, break on the end-of-document sentinel, record
the phrase if it passes the filter, advance.  `fuel` is the number of
remaining iterations (`maxIterations - safetyCounter`), `k` the current
iteration count.  A failing `lastSpokenPhrase` or `next` call raises,
leaving the records accumulated so far. -/
def traverseLoop (nar : Narrator) : Nat → Nat → List String → List AnnouncementRecord → LoopResult
  | 0, k, _, acc => ⟨acc, k, false⟩
  | fuel + 1, k, seen, acc =>
    if nar.phraseFails k then ⟨acc, k, true⟩
    else
      let p := nar.phrase k
      if p = "end of document" then ⟨acc, k, false⟩
      else
        let seen2 := if keepPhrase seen p then p :: seen else seen
        let acc2 := if keepPhrase seen p then acc ++ [mkRecord acc.length p] else acc
        if nar.nextFails k then ⟨acc2, k, true⟩
        else traverseLoop nar fuel (k + 1) seen2 acc2

/-- Outcome of the `try { start; loop } catch {} finally { try stop catch {} }`
body of `analyzeContainer`: either a normal completion or a raised narrator
failure, in both cases with the records and iteration count at that point. -/
inductive BodyOutcome where
  | normal (records : List AnnouncementRecord) (iterations : Nat)
  | raised (records : List AnnouncementRecord) (iterations : Nat)
deriving Repr

/-- The try-block body of `analyzeContainer`: start the narrator, then run
the bounded traversal loop. -/
def analyzeBody (nar : Narrator) : BodyOutcome :=
  if nar.startFails then .raised [] 0
  else
    let r := traverseLoop nar 500 0 [] []
    if r.errored then .raised r.records r.completed else .normal r.records r.completed

/-- What `analyzeContainer` hands back to its caller. `caughtError` records
that a narrator failure occurred and was absorbed by the catch clause;
`stopAttempted` records that the `finally` clause issued a `stop` call
(whose own failure is absorbed locally). -/
structure TraversalOutcome where
  records : List AnnouncementRecord
  iterations : Nat
  caughtError : Bool
  stopAttempted : Bool
deriving Repr

/-- `analyzeContainer`: run the body under try/catch/finally.  Both on normal
completion and on a caught failure the collected records are returned; the
`finally` clause always attempts `stop`. -/
def analyzeContainer (nar : Narrator) : TraversalOutcome :=
  match analyzeBody nar with
  | .normal recs iters => ⟨recs, iters, false, true⟩
  | .raised recs iters => ⟨recs, iters, true, true⟩

/-- Pure reference collector: what the traversal loop inserts when fed a
given list of phrases (used to state partial-result theorems). -/
def collectPhrases : List String → List String → List AnnouncementRecord → List AnnouncementRecord
  | [], _, acc => acc
  | p :: ps, seen, acc =>
    if keepPhrase seen p then collectPhrases ps (p :: seen) (acc ++ [mkRecord acc.length p])
    else collectPhrases ps seen acc

/-- One entry of the fixed selector table of `analyzeContainerSimple`:
a selector predicate, a category, and a label-construction rule (receiving
the element with its ancestor chain; label rules that consult the page use
the document passed to `simpleRules`). -/
structure ScanRule where
  sel : Node → Bool
  category : String
  label : Node × List Node → String

/-- `document.querySelector('label[for="<id>"]')?.textContent?.trim()`,
empty string when absent or empty (JavaScript falsy). -/
def docLabelText (doc el : Node) : String :=
  ((querySel doc (fun n => tagOf n = "label" && getAttr n "for" = some (attrOr el "id"))).map
    (fun l => strTrim (textContent l))).getD ""

/-- `el.closest('label')?.textContent?.trim()`, empty string when absent. -/
def closestLabelText (ea : Node × List Node) : String :=
  ((closestLabel ea).map (fun l => strTrim (textContent l))).getD ""

/-- The fixed selector table of `analyzeContainerSimple`, in source order. -/
def simpleRules (doc : Node) : List ScanRule :=
  [⟨fun n => tagOf n = "nav" || getAttr n "role" = some "navigation", "landmark",
    fun _ => "navigation"⟩,
   ⟨fun n => tagOf n = "header" || getAttr n "role" = some "banner", "landmark",
    fun _ => "banner"⟩,
   ⟨fun n => tagOf n = "main" || getAttr n "role" = some "main", "landmark",
    fun _ => "main"⟩,
   ⟨fun n => tagOf n = "footer" || getAttr n "role" = some "contentinfo", "landmark",
    fun _ => "contentinfo"⟩,
   ⟨fun n => tagOf n = "h1", "heading",
    fun ea => "heading, " ++ strTrim (textContent ea.1) ++ ", level 1"⟩,
   ⟨fun n => tagOf n = "h2", "heading",
    fun ea => "heading, " ++ strTrim (textContent ea.1) ++ ", level 2"⟩,
   ⟨fun n => tagOf n = "h3", "heading",
    fun ea => "heading, " ++ strTrim (textContent ea.1) ++ ", level 3"⟩,
   ⟨fun n => tagOf n = "button" || getAttr n "role" = some "button", "interactive",
    fun ea =>
      let name := jsOr (attrOr ea.1 "aria-label") (strTrim (textContent ea.1))
      if name = "" then "button" else "button, " ++ name⟩,
   ⟨fun n => tagOf n = "a" && hasAttr n "href", "interactive",
    fun ea =>
      let name := jsOr (attrOr ea.1 "aria-label") (strTrim (textContent ea.1))
      if name = "" then "link" else "link, " ++ name⟩,
   ⟨fun n => tagOf n = "img", "interactive",
    fun ea =>
      let alt := attrOr ea.1 "alt"
      if alt = "" then "image" else "image, " ++ alt⟩,
   ⟨fun n => (tagOf n = "input" && (getAttr n "type" = some "text" || getAttr n "type" = none))
             || tagOf n = "textarea", "form",
    fun ea =>
      let lbl := jsOr (attrOr ea.1 "aria-label") (jsOr (docLabelText doc ea.1) (attrOr ea.1 "placeholder"))
      if lbl = "" then "textbox" else "textbox, " ++ lbl⟩,
   ⟨fun n => tagOf n = "input" && getAttr n "type" = some "email", "form",
    fun ea =>
      let lbl := jsOr (attrOr ea.1 "aria-label") (docLabelText doc ea.1)
      if lbl = "" then "textbox" else "textbox, " ++ lbl⟩,
   ⟨fun n => tagOf n = "input" && getAttr n "type" = some "checkbox", "form",
    fun ea =>
      let lbl := jsOr (attrOr ea.1 "aria-label") (closestLabelText ea)
      if lbl = "" then "checkbox" else "checkbox, " ++ lbl⟩,
   ⟨fun n => tagOf n = "input" && getAttr n "type" = some "radio", "form",
    fun ea =>
      let lbl := jsOr (attrOr ea.1 "aria-label") (closestLabelText ea)
      if lbl = "" then "radio button" else "radio button, " ++ lbl⟩]

/-- `analyzeContainerSimple`: apply the selector table in order, within each
entry in document order, threading the shared `index` counter; every match
produces one record, with no deduplication. -/
def analyzeContainerSimple (doc container : Node) : List AnnouncementRecord :=
  ((simpleRules doc).foldl
    (fun st rule =>
      (queryAllA container rule.sel).foldl
        (fun st2 ea => (st2.1 + 1, st2.2 ++ [⟨st2.1, rule.label ea, rule.category, some ea.1⟩]))
        st)
    ((0 : Nat), ([] : List AnnouncementRecord))).2

/-- The `announcementIssues[lower]` lookup of `detectPotentialIssues`: a bare
normalized role name maps to its issue type and description.  The lookup on
the JavaScript object literal also traverses the prototype chain: among the
inherited `Object.prototype` property names, exactly the all-lowercase ones —
`constructor` and `__proto__` — can equal the lower-cased announcement, and
both yield a truthy value, so the program pushes an issue built by spreading
that value (which contributes no own enumerable field) together with the
announcement and severity `error`.  The resulting issue has no `type` or
`description` property; both behave as the string `undefined` in the
`` `${type}-${description}` `` dedup key and equal no concrete issue type,
which is how they are modelled here. -/
def announcementIssueFor (announcement : String) : Option Issue :=
  let lower := strTrim (strToLower announcement)
  if lower = "button" then
    some ⟨"unlabeled_button",
      "Button has no accessible name - screen readers will just say \x22button\x22",
      "error", some announcement, none⟩
  else if lower = "link" then
    some ⟨"empty_link",
      "Link has no accessible name - screen readers will just say \x22link\x22",
      "error", some announcement, none⟩
  else if lower = "image" then
    some ⟨"missing_alt", "Image has no alt text - screen readers cannot describe it",
      "error", some announcement, none⟩
  else if lower = "img" then
    some ⟨"missing_alt", "Image has no alt text - screen readers cannot describe it",
      "error", some announcement, none⟩
  else if lower = "textbox" then
    some ⟨"unlabeled_input", "Form field has no label - users won't know what to enter",
      "error", some announcement, none⟩
  else if lower = "edit" then
    some ⟨"unlabeled_input", "Form field has no label - users won't know what to enter",
      "error", some announcement, none⟩
  else if lower = "checkbox" then
    some ⟨"unlabeled_checkbox", "Checkbox has no label", "error", some announcement, none⟩
  else if lower = "constructor" then
    some ⟨"undefined", "undefined", "error", some announcement, none⟩
  else if lower = "__proto__" then
    some ⟨"undefined", "undefined", "error", some announcement, none⟩
  else none

/-- `img:not([alt])`. -/
def isImgNoAlt (n : Node) : Bool :=
  tagOf n = "img" && !hasAttr n "alt"

/-- `i.type === 'missing_alt'`. -/
def isMissingAlt (i : Issue) : Bool :=
  i.type = "missing_alt"

/-- The issue pushed by the images-without-alt check. -/
def imgIssue (img : Node) : Issue :=
  ⟨"missing_alt", "Image missing alt attribute", "error", none, some img⟩

/-- The images-without-alt check: for each offending image in order, push a
representative issue unless a `missing_alt` issue is already in the list. -/
def imgAltCheck (imgs : List Node) (issues : List Issue) : List Issue :=
  imgs.foldl
    (fun acc img => if acc.any isMissingAlt then acc else acc ++ [imgIssue img])
    issues

/-- `button, [role="button"]`. -/
def isButtonLike (n : Node) : Bool :=
  tagOf n = "button" || getAttr n "role" = some "button"

/-- `btn.querySelector('svg, i, img')` is non-null. -/
def hasIconChild (b : Node) : Bool :=
  (querySel b (fun n => tagOf n = "svg" || tagOf n = "i" || tagOf n = "img")).isSome

/-- Accessible-name test of the icon-button check. -/
def btnHasName (b : Node) : Bool :=
  strTrim (textContent b) ≠ "" || hasAttr b "aria-label" || hasAttr b "aria-labelledby"

/-- Icon buttons without accessible name. -/
def iconButtonIssues (container : Node) : List Issue :=
  (queryAll container isButtonLike).filterMap fun b =>
    if !btnHasName b && hasIconChild b then
      some ⟨"unlabeled_icon_button", "Icon button has no accessible name", "error", none, some b⟩
    else none

/-- Anchors with an href but no text content and no aria-label. -/
def emptyLinkIssues (container : Node) : List Issue :=
  (queryAll container (fun n => tagOf n = "a" && hasAttr n "href")).filterMap fun l =>
    if strTrim (textContent l) = "" && !hasAttr l "aria-label" then
      some ⟨"empty_link", "Link has no text content", "error", none, some l⟩
    else none

/-- Clickable div/span without role or tabindex. -/
def fakeButtonIssues (container : Node) : List Issue :=
  (queryAll container
      (fun n => (tagOf n = "div" || tagOf n = "span") && hasAttr n "onclick")).filterMap fun el =>
    if !hasAttr el "role" && !hasAttr el "tabindex" then
      some ⟨"fake_button", "Clickable element is not a button - not keyboard accessible",
        "warning", none, some el⟩
    else none

/-- `main, [role="main"]`. -/
def isMainLandmark (n : Node) : Bool :=
  tagOf n = "main" || getAttr n "role" = some "main"

/-- `p, h1, h2, form` — the content-bearing elements of the missing-main check. -/
def isContentTag (n : Node) : Bool :=
  tagOf n = "p" || tagOf n = "h1" || tagOf n = "h2" || tagOf n = "form"

/-- The constant issue of the missing-main check. -/
def mainIssue : Issue :=
  ⟨"missing_main", "No main landmark - screen reader users cannot skip to main content",
   "warning", none, none⟩

/-- The missing-main-landmark check. -/
def missingMainIssues (container : Node) : List Issue :=
  if (querySel container isMainLandmark).isNone
      && decide (2 < (queryAll container isContentTag).length) then
    [mainIssue]
  else []

/-- `h1, h2, h3, h4, h5, h6`. -/
def isHeadingTag (n : Node) : Bool :=
  tagOf n = "h1" || tagOf n = "h2" || tagOf n = "h3"
    || tagOf n = "h4" || tagOf n = "h5" || tagOf n = "h6"

/-- `parseInt(h.tagName[1])` for a heading element. -/
def headingLevel (n : Node) : Nat :=
  if tagOf n = "h1" then 1 else if tagOf n = "h2" then 2 else if tagOf n = "h3" then 3
  else if tagOf n = "h4" then 4 else if tagOf n = "h5" then 5
  else if tagOf n = "h6" then 6 else 0

/-- Decimal digit as a string (heading levels are single digits). -/
def digitStr (n : Nat) : String :=
  if n = 0 then "0" else if n = 1 then "1" else if n = 2 then "2" else if n = 3 then "3"
  else if n = 4 then "4" else if n = 5 then "5" else if n = 6 then "6"
  else if n = 7 then "7" else if n = 8 then "8" else "9"

/-- One step of the heading-hierarchy walk: carry the previous heading level,
emit an issue when the level jumps by more than 1 past a seen heading. -/
def headingStep (st : Nat × List Issue) (h : Node) : Nat × List Issue :=
  let level := headingLevel h
  (level,
    if st.1 > 0 && decide (st.1 + 1 < level) then
      st.2 ++ [⟨"heading_skip",
        "Heading level skipped from h" ++ digitStr st.1 ++ " to h" ++ digitStr level,
        "warning", none, some h⟩]
    else st.2)

/-- Heading-hierarchy walk: a heading whose level exceeds the previous one by
more than 1 (once a first heading has been seen) yields one issue. -/
def headingSkipIssues (container : Node) : List Issue :=
  ((queryAll container isHeadingTag).foldl headingStep ((0 : Nat), ([] : List Issue))).2

/-- `input, textarea, select`. -/
def isFormControl (n : Node) : Bool :=
  tagOf n = "input" || tagOf n = "textarea" || tagOf n = "select"

/-- The `type` DOM property of a form control: `textarea`/`select` report
fixed values; inputs report their (lower-cased, validated) type attribute,
defaulting to `text`. -/
def inputType (n : Node) : String :=
  if tagOf n = "textarea" then "textarea"
  else if tagOf n = "select" then
    (if hasAttr n "multiple" then "select-multiple" else "select-one")
  else
    match getAttr n "type" with
    | some t =>
      let lt := strToLower t
      if ["hidden", "text", "search", "tel", "url", "email", "password", "date", "month",
          "week", "time", "datetime-local", "number", "range", "color", "checkbox", "radio",
          "file", "submit", "image", "reset", "button"].contains lt then lt else "text"
    | none => "text"

/-- Label-association test of the unlabeled-input check: a non-empty id with
a matching `label[for]` inside the container, an aria-label or
aria-labelledby attribute, or a wrapping label element. -/
def inputHasLabel (container : Node) (ea : Node × List Node) : Bool :=
  (attrOr ea.1 "id" ≠ ""
      && (querySel container
            (fun n => tagOf n = "label" && getAttr n "for" = some (attrOr ea.1 "id"))).isSome)
    || hasAttr ea.1 "aria-label" || hasAttr ea.1 "aria-labelledby"
    || (closestLabel ea).isSome

/-- Unlabeled form controls (hidden/submit/button types excluded). -/
def unlabeledInputIssues (container : Node) : List Issue :=
  (queryAllA container isFormControl).filterMap fun ea =>
    let t := inputType ea.1
    if ["hidden", "submit", "button"].contains t then none
    else if inputHasLabel container ea then none
    else
      some ⟨"unlabeled_input",
        "Form " ++ (if t = "" then "input" else t) ++ " has no associated label",
        "error", none, some ea.1⟩

/-- `scanContainerForIssues`: run the fixed check battery in source order,
appending to the list of issues accumulated so far (the list passed in is
the announcement-derived issues; only the images check consults it). -/
def scanContainerForIssues (container : Node) (issues : List Issue) : List Issue :=
  let i1 := imgAltCheck (queryAll container isImgNoAlt) issues
  let i2 := i1 ++ iconButtonIssues container
  let i3 := i2 ++ emptyLinkIssues container
  let i4 := i3 ++ fakeButtonIssues container
  let i5 := i4 ++ missingMainIssues container
  let i6 := i5 ++ headingSkipIssues container
  i6 ++ unlabeledInputIssues container

/-- The deduplication key of the final filter: `` `${type}-${description}` ``. -/
def issueKey (i : Issue) : String :=
  i.type ++ "-" ++ i.description

/-- The final filter of `detectPotentialIssues` with its `seen` set of keys:
keep an issue iff its key has not been seen, then mark it seen. -/
def dedupAux : List Issue → List String → List Issue
  | [], _ => []
  | i :: is, seen =>
    if seen.contains (issueKey i) then dedupAux is seen
    else i :: dedupAux is (issueKey i :: seen)

/-- The issue reconciler: first-seen-wins filter keyed on
`` `${type}-${description}` ``. -/
def dedupIssues (l : List Issue) : List Issue :=
  dedupAux l []

/-- `detectPotentialIssues`: collect announcement-pattern issues, append the
structural scan when a container is given, then deduplicate. -/
def detectPotentialIssues (analysisResults : List AnnouncementRecord)
    (container : Option Node) : List Issue :=
  let issues := analysisResults.filterMap (fun r => announcementIssueFor r.announcement)
  let issues :=
    match container with
    | some c => scanContainerForIssues c issues
    | none => issues
  dedupIssues issues

/-- The announcement-uniqueness invariant of the spec: no two records of one
run share an `announcement` string. -/
def announcementsUnique (rs : List AnnouncementRecord) : Prop :=
  (rs.map (·.announcement)).Nodup

/-- Index contiguity invariant: the `index` fields are exactly
`0, 1, …, length-1` in order. -/
def indexContiguous (rs : List AnnouncementRecord) : Prop :=
  rs.map (·.index) = List.range rs.length

end SRV

namespace SRV

lemma keepPhrase_not_mem {seen : List String} {p : String}
    (h : keepPhrase seen p = true) : p ∉ seen := by
  simp only [keepPhrase, Bool.and_eq_true, Bool.not_eq_true', decide_eq_true_eq] at h
  intro hmem
  have hc : seen.contains p = true :=
    List.contains_iff_exists_mem_beq.mpr ⟨p, hmem, by simp⟩
  rw [h.1.1.2] at hc
  cases hc

lemma analyzeContainer_records (nar : Narrator) :
    (analyzeContainer nar).records =
      if nar.startFails then [] else (traverseLoop nar 500 0 [] []).records := by
  unfold analyzeContainer analyzeBody
  by_cases h : nar.startFails
  · simp [h]
  · simp only [h]
    cases he : (traverseLoop nar 500 0 [] []).errored <;> simp [he]

lemma traverseLoop_unique (nar : Narrator) (fuel : Nat) :
    ∀ (k : Nat) (seen : List String) (acc : List AnnouncementRecord),
      (acc.map (·.announcement)).Nodup →
      (∀ a ∈ acc.map (·.announcement), a ∈ seen) →
      ((traverseLoop nar fuel k seen acc).records.map (·.announcement)).Nodup := by
  induction fuel with
  | zero => intro k seen acc h1 _; simpa [traverseLoop] using h1
  | succ n ih =>
    intro k seen acc h1 h2
    simp only [traverseLoop]
    by_cases hpf : nar.phraseFails k = true
    · simpa [hpf] using h1
    · simp only [hpf, if_false]
      by_cases hend : nar.phrase k = "end of document"
      · simpa [hend] using h1
      · simp only [hend, if_false]
        by_cases hkeep : keepPhrase seen (nar.phrase k) = true
        · have hnm : nar.phrase k ∉ seen := keepPhrase_not_mem hkeep
          have h1' : (((acc ++ [mkRecord acc.length (nar.phrase k)]).map (·.announcement)).Nodup) := by
            simp only [List.map_append, List.map_cons, List.map_nil, mkRecord]
            rw [List.nodup_append]
            refine ⟨h1, List.nodup_singleton _, ?_⟩
            rw [List.disjoint_singleton]
            intro hmem
            exact hnm (h2 _ hmem)
          have h2' : ∀ a ∈ (acc ++ [mkRecord acc.length (nar.phrase k)]).map (·.announcement),
              a ∈ nar.phrase k :: seen := by
            intro a ha
            simp only [List.map_append, List.map_cons, List.map_nil, mkRecord,
              List.mem_append, List.mem_singleton] at ha
            rcases ha with ha | ha
            · exact List.mem_cons_of_mem _ (h2 _ ha)
            · simp [ha]
          by_cases hnf : nar.nextFails k = true
          · simpa [hkeep, hnf] using h1'
          · simpa [hkeep, hnf] using ih (k + 1) _ _ h1' h2'
        · by_cases hnf : nar.nextFails k = true
          · simpa [hkeep, hnf] using h1
          · simpa [hkeep, hnf] using ih (k + 1) _ _ h1 h2

/-- Container used to refute the fallback half of the dedup claim: two
unlabeled buttons. -/
def twoButtonDoc : Node :=
  .elem "div" [] [.elem "button" [] [], .elem "button" [] []]

/-- C1, claim as stated, is false: the DirectScanNarrator fallback
(`analyzeContainerSimple`) applies no deduplication, and on a container with
two unlabeled buttons produces two records whose `announcement` is the same
string `button`. -/
theorem C1_counterexample :
    ¬ announcementsUnique (analyzeContainerSimple twoButtonDoc twoButtonDoc) ∧
      (analyzeContainerSimple twoButtonDoc twoButtonDoc).map (·.announcement)
        = ["button", "button"] := by
  constructor
  · intro h
    simp only [announcementsUnique] at h
    revert h
    decide
  · rfl

/-- C1 (amended): within one analysis run of the NarrationTraverser
(`analyzeContainer`), no two records share an `announcement` string — exact
duplicates are suppressed at insertion via the `seen` set.  The
DirectScanNarrator fallback applies no such suppression. -/
theorem C1_traverser_announcements_unique (nar : Narrator) :
    announcementsUnique (analyzeContainer nar).records := by
  rw [announcementsUnique, analyzeContainer_records]
  by_cases h : nar.startFails
  · simp [h]
  · simp only [h, if_false]
    exact traverseLoop_unique nar 500 0 [] [] (by simp) (by simp)

lemma traverseLoop_indices (nar : Narrator) (fuel : Nat) :
    ∀ (k : Nat) (seen : List String) (acc : List AnnouncementRecord),
      acc.map (·.index) = List.range acc.length →
      (traverseLoop nar fuel k seen acc).records.map (·.index)
        = List.range (traverseLoop nar fuel k seen acc).records.length := by
  induction fuel with
  | zero => intro k seen acc h; simpa [traverseLoop] using h
  | succ n ih =>
    intro k seen acc h
    have hstep : (acc ++ [mkRecord acc.length (nar.phrase k)]).map (·.index)
        = List.range (acc ++ [mkRecord acc.length (nar.phrase k)]).length := by
      simp only [List.map_append, List.map_cons, List.map_nil, mkRecord, h,
        List.length_append, List.length_cons, List.length_nil]
      rw [← List.range_succ]
    simp only [traverseLoop]
    by_cases hpf : nar.phraseFails k = true
    · simpa [hpf] using h
    · simp only [hpf, if_false]
      by_cases hend : nar.phrase k = "end of document"
      · simpa [hend] using h
      · simp only [hend, if_false]
        by_cases hkeep : keepPhrase seen (nar.phrase k) = true
        · by_cases hnf : nar.nextFails k = true
          · simpa [hkeep, hnf] using hstep
          · simpa [hkeep, hnf] using ih (k + 1) _ _ hstep
        · by_cases hnf : nar.nextFails k = true
          · simpa [hkeep, hnf] using h
          · simpa [hkeep, hnf] using ih (k + 1) _ _ h

/-- The step function of the inner fold of `analyzeContainerSimple`. -/
def simpleStep (rule : ScanRule) (st : Nat × List AnnouncementRecord)
    (ea : Node × List Node) : Nat × List AnnouncementRecord :=
  (st.1 + 1, st.2 ++ [⟨st.1, rule.label ea, rule.category, some ea.1⟩])

/-- The invariant carried through `analyzeContainerSimple`: the shared index
counter equals the record count, and indexes are contiguous. -/
def simpleInv (st : Nat × List AnnouncementRecord) : Prop :=
  st.1 = st.2.length ∧ st.2.map (·.index) = List.range st.2.length

lemma simpleStep_inv (rule : ScanRule) (ms : List (Node × List Node)) :
    ∀ st, simpleInv st → simpleInv (ms.foldl (simpleStep rule) st) := by
  induction ms with
  | nil => intro st h; exact h
  | cons ea rest ih =>
    intro st h
    apply ih
    refine ⟨by simp [simpleStep, h.1], ?_⟩
    simp only [simpleStep, List.map_append, List.map_cons, List.map_nil, h.2,
      List.length_append, List.length_cons, List.length_nil, h.1]
    rw [← List.range_succ]

lemma simpleRules_inv (container : Node) (rules : List ScanRule) :
    ∀ st, simpleInv st →
      simpleInv (rules.foldl
        (fun st rule => (queryAllA container rule.sel).foldl (simpleStep rule) st) st) := by
  induction rules with
  | nil => intro st h; exact h
  | cons r rest ih =>
    intro st h
    exact ih _ (simpleStep_inv r _ _ h)

/-- C8: in the output of the NarrationTraverser (`analyzeContainer`) and of
the DirectScanNarrator (`analyzeContainerSimple`) alike, the record at
position `i` carries `index = i`: indexes are contiguous, zero-based and
strictly increasing in discovery order. -/
theorem C8_index_contiguity :
    (∀ nar : Narrator, indexContiguous (analyzeContainer nar).records) ∧
    (∀ doc container : Node, indexContiguous (analyzeContainerSimple doc container)) := by
  constructor
  · intro nar
    rw [indexContiguous, analyzeContainer_records]
    by_cases h : nar.startFails
    · simp [h]
    · simp only [h, if_false]
      exact traverseLoop_indices nar 500 0 [] [] (by simp)
  · intro doc container
    have h := simpleRules_inv container (simpleRules doc) ((0 : Nat), ([] : List AnnouncementRecord))
      ⟨rfl, by simp⟩
    have heq : analyzeContainerSimple doc container
        = ((simpleRules doc).foldl
            (fun st rule => (queryAllA container rule.sel).foldl (simpleStep rule) st)
            ((0 : Nat), ([] : List AnnouncementRecord))).2 := rfl
    rw [indexContiguous, heq]
    exact h.2

lemma traverseLoop_clean (nar : Narrator) (fuel : Nat) :
    ∀ (k : Nat) (seen : List String) (acc : List AnnouncementRecord),
      (∀ i, k ≤ i → i < k + fuel →
        nar.phraseFails i = false ∧ nar.phrase i ≠ "end of document"
          ∧ nar.nextFails i = false) →
      traverseLoop nar fuel k seen acc
        = ⟨collectPhrases ((List.range' k fuel).map nar.phrase) seen acc, k + fuel, false⟩ := by
  induction fuel with
  | zero => intro k seen acc _; simp [traverseLoop, collectPhrases]
  | succ n ih =>
    intro k seen acc h
    obtain ⟨hpf, hend, hnf⟩ := h k (Nat.le_refl k) (by omega)
    rw [List.range'_succ, List.map_cons]
    simp only [traverseLoop, hpf, hend, hnf, collectPhrases, Bool.false_eq_true, if_false]
    have harith : k + 1 + n = k + (n + 1) := by omega
    by_cases hkeep : keepPhrase seen (nar.phrase k) = true
    · simp only [hkeep, if_true]
      rw [ih (k + 1) _ _ (fun i h1 h2 => h i (by omega) (by omega)), harith]
    · rw [Bool.not_eq_true] at hkeep
      simp only [hkeep, Bool.false_eq_true, if_false]
      rw [ih (k + 1) _ _ (fun i h1 h2 => h i (by omega) (by omega)), harith]

/-- C3: a narrator that functions but never produces the end-of-document
sentinel drives `analyzeContainer` through exactly 500 iterations; it then
stops silently (no error raised or recorded) and returns the records
collected over those iterations. -/
theorem C3_iteration_ceiling (nar : Narrator)
    (hstart : nar.startFails = false)
    (hph : ∀ k, k < 500 → nar.phraseFails k = false)
    (hnx : ∀ k, k < 500 → nar.nextFails k = false)
    (hend : ∀ k, nar.phrase k ≠ "end of document") :
    (analyzeContainer nar).iterations = 500 ∧
    (analyzeContainer nar).caughtError = false ∧
    (analyzeContainer nar).records
      = collectPhrases ((List.range' 0 500).map nar.phrase) [] [] := by
  have hloop := traverseLoop_clean nar 500 0 [] []
    (fun i h1 h2 => ⟨hph i (by omega), hend i, hnx i (by omega)⟩)
  unfold analyzeContainer analyzeBody
  simp [hstart, hloop]

/-- A narrator stub that always answers the same phrase and never fails. -/
def steadyNarrator : Narrator :=
  ⟨false, fun _ => "item", fun _ => false, fun _ => false, false⟩

theorem C3_iteration_ceiling_witness :
    (analyzeContainer steadyNarrator).iterations = 500 ∧
    (analyzeContainer steadyNarrator).caughtError = false ∧
    (analyzeContainer steadyNarrator).records
      = collectPhrases ((List.range' 0 500).map steadyNarrator.phrase) [] [] :=
  C3_iteration_ceiling steadyNarrator rfl (fun _ _ => rfl) (fun _ _ => rfl)
    (fun _ => by show ("item" : String) ≠ "end of document"; decide)

lemma traverseLoop_fail (nar : Narrator) :
    ∀ (j fuel k : Nat) (seen : List String) (acc : List AnnouncementRecord),
      j < fuel →
      (∀ i, i < j →
        nar.phraseFails (k + i) = false ∧ nar.phrase (k + i) ≠ "end of document"
          ∧ nar.nextFails (k + i) = false) →
      (nar.phraseFails (k + j) = true ∨
        (nar.phraseFails (k + j) = false ∧ nar.phrase (k + j) ≠ "end of document"
          ∧ nar.nextFails (k + j) = true)) →
      traverseLoop nar fuel k seen acc
        = ⟨collectPhrases
             ((List.range' k (if nar.phraseFails (k + j) then j else j + 1)).map nar.phrase)
             seen acc,
           k + j, true⟩ := by
  intro j
  induction j with
  | zero =>
    intro fuel k seen acc hj _ hfail
    obtain ⟨f, rfl⟩ : ∃ f, fuel = f + 1 := ⟨fuel - 1, by omega⟩
    rcases hfail with hf | ⟨hpf, hend, hnf⟩
    · rw [Nat.add_zero] at hf
      simp [traverseLoop, hf, collectPhrases]
    · rw [Nat.add_zero] at hpf hend hnf
      simp only [Nat.add_zero, hpf, Bool.false_eq_true, if_false, List.range'_succ,
        List.range'_zero, List.map_cons, List.map_nil]
      simp only [traverseLoop, hpf, hend, hnf, collectPhrases, Bool.false_eq_true, if_false]
      by_cases hkeep : keepPhrase seen (nar.phrase k) = true
      · simp [hkeep, collectPhrases]
      · simp [hkeep, collectPhrases]
  | succ m ih =>
    intro fuel k seen acc hj hpre hfail
    obtain ⟨f, rfl⟩ : ∃ f, fuel = f + 1 := ⟨fuel - 1, by omega⟩
    obtain ⟨hpf, hend, hnf⟩ := by
      have := hpre 0 (by omega)
      rwa [Nat.add_zero] at this
    have harith : k + 1 + m = k + (m + 1) := by omega
    have hpre' : ∀ i, i < m →
        nar.phraseFails (k + 1 + i) = false ∧ nar.phrase (k + 1 + i) ≠ "end of document"
          ∧ nar.nextFails (k + 1 + i) = false := by
      intro i hi
      have := hpre (i + 1) (by omega)
      have harith2 : k + (i + 1) = k + 1 + i := by omega
      rwa [harith2] at this
    have hfail' : nar.phraseFails (k + 1 + m) = true ∨
        (nar.phraseFails (k + 1 + m) = false ∧ nar.phrase (k + 1 + m) ≠ "end of document"
          ∧ nar.nextFails (k + 1 + m) = true) := by
      rwa [harith]
    have hLrw : (if nar.phraseFails (k + (m + 1)) then m + 1 else m + 1 + 1)
        = (if nar.phraseFails (k + 1 + m) then m else m + 1) + 1 := by
      rw [harith]
      by_cases hc : nar.phraseFails (k + (m + 1)) = true <;> simp [hc]
    rw [hLrw, List.range'_succ, List.map_cons]
    simp only [traverseLoop, hpf, hend, hnf, collectPhrases, Bool.false_eq_true, if_false]
    by_cases hkeep : keepPhrase seen (nar.phrase k) = true
    · simp only [hkeep, if_true]
      rw [ih f (k + 1) _ _ (by omega) hpre' hfail', harith]
    · rw [Bool.not_eq_true] at hkeep
      simp only [hkeep, Bool.false_eq_true, if_false]
      rw [ih f (k + 1) _ _ (by omega) hpre' hfail', harith]

lemma traverseLoop_stopFails (nar : Narrator) (b : Bool) (fuel : Nat) :
    ∀ (k : Nat) (seen : List String) (acc : List AnnouncementRecord),
      traverseLoop { nar with stopFails := b } fuel k seen acc
        = traverseLoop nar fuel k seen acc := by
  obtain ⟨s, ph, pf, nf, st⟩ := nar
  induction fuel with
  | zero => intro k seen acc; rfl
  | succ n ih =>
    intro k seen acc
    simp only [traverseLoop]
    by_cases hpf : pf k = true
    · simp [hpf]
    · rw [Bool.not_eq_true] at hpf
      simp only [hpf, Bool.false_eq_true, if_false]
      by_cases hend : ph k = "end of document"
      · simp [hend]
      · simp only [hend, if_false]
        by_cases hnf : nf k = true
        · simp [hnf]
        · rw [Bool.not_eq_true] at hnf
          simp only [hnf, Bool.false_eq_true, if_false]
          exact ih (k + 1) _ _

/-- C4: narrator failures during start, read or advance are absorbed inside
`analyzeContainer`: a `stop` is attempted on every exit path, a failure of
`stop` itself changes nothing, the failure is recorded as caught rather than
thrown, and the records collected before the failing call are returned. -/
theorem C4_failure_absorbed (nar : Narrator) (j : Nat) (hj : j < 500)
    (hstart : nar.startFails = false)
    (hpre : ∀ i, i < j →
      nar.phraseFails i = false ∧ nar.phrase i ≠ "end of document"
        ∧ nar.nextFails i = false)
    (hfail : nar.phraseFails j = true ∨
      (nar.phraseFails j = false ∧ nar.phrase j ≠ "end of document"
        ∧ nar.nextFails j = true)) :
    (∀ m : Narrator, (analyzeContainer m).stopAttempted = true) ∧
    (∀ (m : Narrator) (b : Bool),
      analyzeContainer { m with stopFails := b } = analyzeContainer m) ∧
    (∀ m : Narrator, m.startFails = true →
      (analyzeContainer m).records = [] ∧ (analyzeContainer m).caughtError = true) ∧
    (analyzeContainer nar).caughtError = true ∧
    (analyzeContainer nar).records
      = collectPhrases
          ((List.range' 0 (if nar.phraseFails j then j else j + 1)).map nar.phrase) [] [] := by
  have hzero : ∀ i : Nat, (0 : Nat) + i = i := fun i => Nat.zero_add i
  have hpre0 : ∀ i, i < j →
      nar.phraseFails (0 + i) = false ∧ nar.phrase (0 + i) ≠ "end of document"
        ∧ nar.nextFails (0 + i) = false := by
    intro i hi; rw [hzero]; exact hpre i hi
  have hfail0 : nar.phraseFails (0 + j) = true ∨
      (nar.phraseFails (0 + j) = false ∧ nar.phrase (0 + j) ≠ "end of document"
        ∧ nar.nextFails (0 + j) = true) := by rw [hzero]; exact hfail
  have hloop := traverseLoop_fail nar j 500 0 [] [] hj hpre0 hfail0
  rw [hzero] at hloop
  refine ⟨?_, ?_, ?_, ?_, ?_⟩
  · intro m
    unfold analyzeContainer
    cases analyzeBody m <;> rfl
  · intro m b
    unfold analyzeContainer analyzeBody
    rw [traverseLoop_stopFails m b 500 0 [] []]
  · intro m hm
    unfold analyzeContainer analyzeBody
    simp [hm]
  · unfold analyzeContainer analyzeBody
    simp [hstart, hloop]
  · unfold analyzeContainer analyzeBody
    simp [hstart, hloop]

/-- A narrator stub whose `lastSpokenPhrase` call fails at iteration 2. -/
def failingNarrator : Narrator :=
  ⟨false, fun _ => "item", fun k => decide (k = 2), fun _ => false, false⟩

theorem C4_failure_absorbed_witness :
    (∀ m : Narrator, (analyzeContainer m).stopAttempted = true) ∧
    (∀ (m : Narrator) (b : Bool),
      analyzeContainer { m with stopFails := b } = analyzeContainer m) ∧
    (∀ m : Narrator, m.startFails = true →
      (analyzeContainer m).records = [] ∧ (analyzeContainer m).caughtError = true) ∧
    (analyzeContainer failingNarrator).caughtError = true ∧
    (analyzeContainer failingNarrator).records
      = collectPhrases
          ((List.range' 0 (if failingNarrator.phraseFails 2 then 2 else 2 + 1)).map
            failingNarrator.phrase) [] [] :=
  C4_failure_absorbed failingNarrator 2 (by omega) rfl
    (fun i hi => ⟨by simp [failingNarrator]; omega,
      by show ("item" : String) ≠ "end of document"; decide, rfl⟩)
    (Or.inl (by decide))

/-- The `(type, description)` pair of an issue — the deduplication identity
the spec describes. -/
def pairOf (i : Issue) : String × String :=
  (i.type, i.description)

/-- A string containing no dash.  Every issue type this program constructs is
dash-free, which makes the concatenated `type-description` key faithful to
the `(type, description)` pair. -/
def dashFree (s : String) : Prop :=
  '-' ∉ s.data

instance (s : String) : Decidable (dashFree s) := by
  unfold dashFree
  infer_instance

lemma contains_iff_mem {α} [BEq α] [LawfulBEq α] (l : List α) (a : α) :
    l.contains a = true ↔ a ∈ l := by
  constructor
  · intro h
    obtain ⟨b, hb, he⟩ := List.contains_iff_exists_mem_beq.mp h
    exact (eq_of_beq he) ▸ hb
  · intro h
    exact List.contains_iff_exists_mem_beq.mpr ⟨a, h, by simp⟩

lemma append_dash_inj (a : List Char) :
    ∀ (c b d : List Char), '-' ∉ a → '-' ∉ c →
      a ++ '-' :: b = c ++ '-' :: d → a = c ∧ b = d := by
  induction a with
  | nil =>
    intro c b d _ hc h
    cases c with
    | nil => simpa using h
    | cons x c' =>
      simp only [List.nil_append, List.cons_append, List.cons.injEq] at h
      cases h.1
      exact absurd (List.mem_cons_self _ _) hc
  | cons y a' iha =>
    intro c b d ha hc h
    cases c with
    | nil =>
      simp only [List.cons_append, List.nil_append, List.cons.injEq] at h
      obtain ⟨h1, _⟩ := h
      subst h1
      exact absurd (List.mem_cons_self _ _) ha
    | cons x c' =>
      simp only [List.cons_append, List.cons.injEq] at h
      obtain ⟨hyx, ht⟩ := h
      subst hyx
      obtain ⟨h1, h2⟩ :=
        iha c' b d (fun hm => ha (List.mem_cons_of_mem _ hm))
          (fun hm => hc (List.mem_cons_of_mem _ hm)) ht
      exact ⟨by rw [h1], h2⟩

lemma issueKey_data (i : Issue) :
    (issueKey i).data = i.type.data ++ '-' :: i.description.data := by
  simp [issueKey, String.data_append]

lemma key_determines_pair {i : Issue} {p : String × String}
    (hi : dashFree i.type) (hp : dashFree p.1)
    (h : issueKey i = p.1 ++ "-" ++ p.2) : pairOf i = p := by
  have hd : i.type.data ++ '-' :: i.description.data = p.1.data ++ '-' :: p.2.data := by
    rw [← issueKey_data, h]
    simp [String.data_append]
  obtain ⟨h1, h2⟩ := append_dash_inj _ _ _ _ hi hp hd
  simp only [pairOf]
  rw [String.ext h1, String.ext h2]

/-- Pair-based first-seen-wins filter (same algorithm as the code's filter,
with the key replaced by the `(type, description)` pair itself). -/
def pairAux : List Issue → List (String × String) → List Issue
  | [], _ => []
  | i :: is, seen =>
    if pairOf i ∈ seen then pairAux is seen
    else i :: pairAux is (pairOf i :: seen)

/-- Modelled from the spec's words for the reconciler, with `pre` the earlier
issues of the concatenated sequence: an issue is kept, unchanged and in
order, exactly when no earlier issue carries the same
`(type, description)` pair. -/
def pairDedupSpecGo : List Issue → List Issue → List Issue
  | _, [] => []
  | pre, i :: is =>
    if pre.all (fun p => pairOf p ≠ pairOf i) then i :: pairDedupSpecGo (pre ++ [i]) is
    else pairDedupSpecGo (pre ++ [i]) is

/-- Modelled from the spec: remove exactly those later issues whose
`(type, description)` pair equals the pair of some earlier issue, preserving
first-seen order, keeping each first occurrence unchanged. -/
def pairDedupSpec (l : List Issue) : List Issue :=
  pairDedupSpecGo [] l

lemma dedupAux_eq_pairAux :
    ∀ (l : List Issue) (seenK : List String) (seenP : List (String × String)),
      (∀ i ∈ l, dashFree i.type) →
      (∀ p ∈ seenP, dashFree p.1) →
      (∀ s, s ∈ seenK ↔ ∃ p ∈ seenP, s = p.1 ++ "-" ++ p.2) →
      dedupAux l seenK = pairAux l seenP := by
  intro l
  induction l with
  | nil => intro _ _ _ _ _; rfl
  | cons i is ih =>
    intro seenK seenP hl hp hcorr
    have hkey : seenK.contains (issueKey i) = true ↔ pairOf i ∈ seenP := by
      rw [contains_iff_mem, hcorr]
      constructor
      · rintro ⟨p, hpmem, heq⟩
        exact key_determines_pair (hl i (List.mem_cons_self _ _)) (hp p hpmem) heq ▸ hpmem
      · intro hmem
        exact ⟨pairOf i, hmem, by simp [issueKey, pairOf]⟩
    have hl' : ∀ j ∈ is, dashFree j.type := fun j hj => hl j (List.mem_cons_of_mem _ hj)
    by_cases hc : pairOf i ∈ seenP
    · have hct : seenK.contains (issueKey i) = true := hkey.mpr hc
      simp only [dedupAux, pairAux, hct, if_true, if_pos hc]
      exact ih seenK seenP hl' hp hcorr
    · have hcf : seenK.contains (issueKey i) = false :=
        Bool.eq_false_iff.mpr (fun hcc => hc (hkey.mp hcc))
      simp only [dedupAux, pairAux, hcf, Bool.false_eq_true, if_false, if_neg hc]
      congr 1
      apply ih (issueKey i :: seenK) (pairOf i :: seenP) hl'
      · intro p hpm
        rcases List.mem_cons.mp hpm with rfl | hpm'
        · exact hl i (List.mem_cons_self _ _)
        · exact hp p hpm'
      · intro s
        simp only [List.mem_cons]
        constructor
        · rintro (rfl | hs)
          · exact ⟨pairOf i, Or.inl rfl, by simp [issueKey, pairOf]⟩
          · obtain ⟨p, hpm, he⟩ := (hcorr s).mp hs
            exact ⟨p, Or.inr hpm, he⟩
        · rintro ⟨p, rfl | hpm, he⟩
          · exact Or.inl (by simpa [issueKey, pairOf] using he)
          · exact Or.inr ((hcorr s).mpr ⟨p, hpm, he⟩)

lemma pairAux_eq_specGo :
    ∀ (l pre : List Issue) (seen : List (String × String)),
      (∀ x, x ∈ seen ↔ x ∈ pre.map pairOf) →
      pairAux l seen = pairDedupSpecGo pre l := by
  intro l
  induction l with
  | nil => intro pre seen _; rfl
  | cons i is ih =>
    intro pre seen hcorr
    have hsplit : ∀ x, x ∈ seen ∨ x = pairOf i ↔ x ∈ (pre ++ [i]).map pairOf := by
      intro x
      rw [List.map_append, List.mem_append]
      simp only [List.map_cons, List.map_nil, List.mem_singleton, hcorr]
    by_cases hc : pairOf i ∈ seen
    · have hall : pre.all (fun p => pairOf p ≠ pairOf i) = false := by
        obtain ⟨p, hpmem, hpe⟩ := List.mem_map.mp ((hcorr _).mp hc)
        rw [Bool.eq_false_iff]
        intro hall
        exact absurd hpe (by simpa using (List.all_eq_true.mp hall) p hpmem)
      simp only [pairAux, pairDedupSpecGo, if_pos hc, hall, Bool.false_eq_true, if_false]
      apply ih
      intro x
      rw [← hsplit x]
      constructor
      · exact Or.inl
      · rintro (hx | rfl)
        · exact hx
        · exact hc
    · have hall : pre.all (fun p => pairOf p ≠ pairOf i) = true := by
        rw [List.all_eq_true]
        intro p hpm
        simp only [ne_eq, decide_eq_true_eq]
        intro hpe
        exact hc ((hcorr _).mpr (List.mem_map.mpr ⟨p, hpm, hpe⟩))
      simp only [pairAux, pairDedupSpecGo, if_neg hc, hall, if_true]
      congr 1
      apply ih
      intro x
      rw [← hsplit x]
      simp only [List.mem_cons]
      constructor
      · rintro (rfl | hx)
        · exact Or.inr rfl
        · exact Or.inl hx
      · rintro (hx | rfl)
        · exact Or.inr hx
        · exact Or.inl rfl

lemma pairAux_nodup :
    ∀ (l : List Issue) (seen : List (String × String)),
      ((pairAux l seen).map pairOf).Nodup
        ∧ ∀ x ∈ (pairAux l seen).map pairOf, x ∉ seen := by
  intro l
  induction l with
  | nil => intro seen; exact ⟨List.nodup_nil, by simp [pairAux]⟩
  | cons i is ih =>
    intro seen
    by_cases hc : pairOf i ∈ seen
    · simp only [pairAux, if_pos hc]
      exact ih seen
    · simp only [pairAux, if_neg hc, List.map_cons]
      obtain ⟨h1, h2⟩ := ih (pairOf i :: seen)
      refine ⟨List.nodup_cons.mpr
        ⟨fun hmem => (h2 _ hmem) (List.mem_cons_self _ _), h1⟩, ?_⟩
      intro x hx
      rcases List.mem_cons.mp hx with rfl | hx'
      · exact hc
      · intro hxs
        exact (h2 _ hx') (List.mem_cons_of_mem _ hxs)

/-- The `(type, description)` pairs the announcement matcher can produce. -/
def annPairs : List (String × String) :=
  [("unlabeled_button",
    "Button has no accessible name - screen readers will just say \x22button\x22"),
   ("empty_link",
    "Link has no accessible name - screen readers will just say \x22link\x22"),
   ("missing_alt", "Image has no alt text - screen readers cannot describe it"),
   ("unlabeled_input", "Form field has no label - users won't know what to enter"),
   ("unlabeled_checkbox", "Checkbox has no label"),
   ("undefined", "undefined")]

lemma announcementIssueFor_some {s : String} {i : Issue}
    (h : announcementIssueFor s = some i) :
    pairOf i ∈ annPairs ∧ i.severity = "error"
      ∧ i.announcement = some s ∧ i.element = none := by
  simp only [announcementIssueFor] at h
  split_ifs at h <;>
    first
      | (exact Option.noConfusion h)
      | (simp only [Option.some.injEq] at h; subst h;
         exact ⟨by simp [pairOf, annPairs], rfl, rfl, rfl⟩)

lemma mem_imgAltCheck (imgs : List Node) :
    ∀ (issues : List Issue) (i : Issue), i ∈ imgAltCheck imgs issues →
      i ∈ issues ∨ (i.type = "missing_alt" ∧ i.severity = "error"
        ∧ i.description = "Image missing alt attribute") := by
  induction imgs with
  | nil => intro issues i h; exact Or.inl h
  | cons n rest ih =>
    intro issues i h
    rw [show imgAltCheck (n :: rest) issues
        = imgAltCheck rest (if issues.any isMissingAlt then issues else issues ++ [imgIssue n])
      from rfl] at h
    rcases ih _ i h with hmem | hnew
    · by_cases hc : issues.any isMissingAlt = true
      · rw [if_pos hc] at hmem
        exact Or.inl hmem
      · rw [if_neg hc] at hmem
        rcases List.mem_append.mp hmem with hmem' | hmem'
        · exact Or.inl hmem'
        · rcases List.mem_singleton.mp hmem' with rfl
          exact Or.inr ⟨rfl, rfl, rfl⟩
    · exact Or.inr hnew

lemma mem_iconButtonIssues {c : Node} {i : Issue} (h : i ∈ iconButtonIssues c) :
    i.type = "unlabeled_icon_button" ∧ i.severity = "error"
      ∧ i.description = "Icon button has no accessible name" := by
  obtain ⟨b, _, hb⟩ := List.mem_filterMap.mp h
  split_ifs at hb <;>
    first
      | (exact Option.noConfusion hb)
      | (simp only [Option.some.injEq] at hb; subst hb; exact ⟨rfl, rfl, rfl⟩)

lemma mem_emptyLinkIssues {c : Node} {i : Issue} (h : i ∈ emptyLinkIssues c) :
    i.type = "empty_link" ∧ i.severity = "error"
      ∧ i.description = "Link has no text content" := by
  obtain ⟨b, _, hb⟩ := List.mem_filterMap.mp h
  split_ifs at hb <;>
    first
      | (exact Option.noConfusion hb)
      | (simp only [Option.some.injEq] at hb; subst hb; exact ⟨rfl, rfl, rfl⟩)

lemma mem_fakeButtonIssues {c : Node} {i : Issue} (h : i ∈ fakeButtonIssues c) :
    i.type = "fake_button" ∧ i.severity = "warning" := by
  obtain ⟨b, _, hb⟩ := List.mem_filterMap.mp h
  split_ifs at hb <;>
    first
      | (exact Option.noConfusion hb)
      | (simp only [Option.some.injEq] at hb; subst hb; exact ⟨rfl, rfl⟩)

lemma mem_missingMainIssues_iff {c : Node} {i : Issue} :
    i ∈ missingMainIssues c ↔
      ((querySel c isMainLandmark).isNone = true
        ∧ 2 < (queryAll c isContentTag).length ∧ i = mainIssue) := by
  unfold missingMainIssues
  by_cases hc : ((querySel c isMainLandmark).isNone
      && decide (2 < (queryAll c isContentTag).length)) = true
  · rw [if_pos hc, Bool.and_eq_true, decide_eq_true_eq] at *
    simp [hc.1, hc.2]
  · rw [if_neg hc]
    rw [Bool.and_eq_true, decide_eq_true_eq] at hc
    simp only [List.not_mem_nil, false_iff, not_and]
    intro h1 h2 _
    exact hc ⟨h1, h2⟩

lemma mem_headingSkipFold (hs : List Node) :
    ∀ (st : Nat × List Issue) (i : Issue), i ∈ (hs.foldl headingStep st).2 →
      i ∈ st.2 ∨ (i.type = "heading_skip" ∧ i.severity = "warning") := by
  induction hs with
  | nil => intro st i h; exact Or.inl h
  | cons n rest ih =>
    intro st i h
    rw [List.foldl_cons] at h
    rcases ih _ i h with hmem | hnew
    · simp only [headingStep] at hmem
      by_cases hc : (st.1 > 0 && decide (st.1 + 1 < headingLevel n)) = true
      · rw [if_pos hc] at hmem
        rcases List.mem_append.mp hmem with hmem' | hmem'
        · exact Or.inl hmem'
        · rcases List.mem_singleton.mp hmem' with rfl
          exact Or.inr ⟨rfl, rfl⟩
      · rw [if_neg hc] at hmem
        exact Or.inl hmem
    · exact Or.inr hnew

lemma mem_unlabeledInputIssues {c : Node} {i : Issue}
    (h : i ∈ unlabeledInputIssues c) :
    i.type = "unlabeled_input" ∧ i.severity = "error" := by
  obtain ⟨b, _, hb⟩ := List.mem_filterMap.mp h
  simp only at hb
  split_ifs at hb <;>
    first
      | (exact Option.noConfusion hb)
      | (simp only [Option.some.injEq] at hb; subst hb; exact ⟨rfl, rfl⟩)

lemma mem_scan {c : Node} {issues0 : List Issue} {i : Issue} :
    i ∈ scanContainerForIssues c issues0 ↔
      i ∈ imgAltCheck (queryAll c isImgNoAlt) issues0 ∨ i ∈ iconButtonIssues c
        ∨ i ∈ emptyLinkIssues c ∨ i ∈ fakeButtonIssues c ∨ i ∈ missingMainIssues c
        ∨ i ∈ headingSkipIssues c ∨ i ∈ unlabeledInputIssues c := by
  simp [scanContainerForIssues, List.mem_append, or_assoc]

/-- The issue types the structural scanner can construct. -/
def structTypes : List String :=
  ["missing_alt", "unlabeled_icon_button", "empty_link", "fake_button",
   "missing_main", "heading_skip", "unlabeled_input"]

lemma scan_structTypes {c : Node} {issues0 : List Issue} {i : Issue}
    (h : i ∈ scanContainerForIssues c issues0) :
    i ∈ issues0 ∨ i.type ∈ structTypes := by
  rcases mem_scan.mp h with h | h | h | h | h | h | h
  · rcases mem_imgAltCheck _ _ _ h with h' | h'
    · exact Or.inl h'
    · exact Or.inr (by simp [h'.1, structTypes])
  · exact Or.inr (by simp [(mem_iconButtonIssues h).1, structTypes])
  · exact Or.inr (by simp [(mem_emptyLinkIssues h).1, structTypes])
  · exact Or.inr (by simp [(mem_fakeButtonIssues h).1, structTypes])
  · exact Or.inr (by simp [(mem_missingMainIssues_iff.mp h).2.2, mainIssue, structTypes])
  · rw [headingSkipIssues] at h
    rcases mem_headingSkipFold _ _ _ h with h' | h'
    · exact absurd h' (List.not_mem_nil i)
    · exact Or.inr (by simp [h'.1, structTypes])
  · exact Or.inr (by simp [(mem_unlabeledInputIssues h).1, structTypes])

lemma imgAltCheck_append (imgs : List Node) :
    ∀ issues, ∃ tail, imgAltCheck imgs issues = issues ++ tail := by
  induction imgs with
  | nil => intro issues; exact ⟨[], by simp [imgAltCheck]⟩
  | cons n rest ih =>
    intro issues
    rw [show imgAltCheck (n :: rest) issues
        = imgAltCheck rest (if issues.any isMissingAlt then issues else issues ++ [imgIssue n])
      from rfl]
    by_cases hc : issues.any isMissingAlt = true
    · rw [if_pos hc]; exact ih issues
    · rw [if_neg hc]
      obtain ⟨t, ht⟩ := ih (issues ++ [imgIssue n])
      exact ⟨[imgIssue n] ++ t, by rw [ht, List.append_assoc]⟩

lemma scan_append (c : Node) (issues : List Issue) :
    ∃ tail, scanContainerForIssues c issues = issues ++ tail := by
  obtain ⟨t0, ht0⟩ := imgAltCheck_append (queryAll c isImgNoAlt) issues
  refine ⟨t0 ++ iconButtonIssues c ++ emptyLinkIssues c ++ fakeButtonIssues c
    ++ missingMainIssues c ++ headingSkipIssues c ++ unlabeledInputIssues c, ?_⟩
  simp [scanContainerForIssues, ht0, List.append_assoc]

lemma detect_dedup_core (res : List AnnouncementRecord) (c : Node) :
    (∃ structural,
      scanContainerForIssues c (res.filterMap fun r => announcementIssueFor r.announcement)
        = (res.filterMap fun r => announcementIssueFor r.announcement) ++ structural) ∧
    detectPotentialIssues res (some c)
      = pairDedupSpec (scanContainerForIssues c
          (res.filterMap fun r => announcementIssueFor r.announcement)) ∧
    ((detectPotentialIssues res (some c)).map pairOf).Nodup := by
  have hdf : ∀ i ∈ scanContainerForIssues c
      (res.filterMap fun r => announcementIssueFor r.announcement), dashFree i.type := by
    intro i hi
    rcases scan_structTypes hi with hmem | htype
    · obtain ⟨r, _, hr⟩ := List.mem_filterMap.mp hmem
      have hpair := (announcementIssueFor_some hr).1
      have hfirsts : ∀ p ∈ annPairs, dashFree p.1 := by decide
      exact hfirsts _ hpair
    · have hst : ∀ t ∈ structTypes, dashFree t := by decide
      exact hst _ htype
  have heq1 : dedupIssues (scanContainerForIssues c
        (res.filterMap fun r => announcementIssueFor r.announcement))
      = pairAux (scanContainerForIssues c
          (res.filterMap fun r => announcementIssueFor r.announcement)) [] :=
    dedupAux_eq_pairAux _ [] [] hdf (by simp) (by simp)
  have heq2 : pairAux (scanContainerForIssues c
        (res.filterMap fun r => announcementIssueFor r.announcement)) []
      = pairDedupSpec (scanContainerForIssues c
          (res.filterMap fun r => announcementIssueFor r.announcement)) :=
    pairAux_eq_specGo _ [] [] (by simp)
  have hdet : detectPotentialIssues res (some c)
      = dedupIssues (scanContainerForIssues c
          (res.filterMap fun r => announcementIssueFor r.announcement)) := rfl
  refine ⟨scan_append c _, ?_, ?_⟩
  · rw [hdet, heq1, heq2]
  · rw [hdet, heq1]
    exact (pairAux_nodup _ []).1

/-- C5: the reconciler applied to announcement-derived issues followed by the
structural issues keeps exactly the first occurrence of each
`(type, description)` pair, unchanged and in first-seen order (it equals the
pair-keyed reference filter `pairDedupSpec`), and in consequence the output
has pairwise-distinct `(type, description)` pairs. -/
theorem C5_reconciler_dedup (res : List AnnouncementRecord) (c : Node) :
    (∃ structural,
      scanContainerForIssues c (res.filterMap fun r => announcementIssueFor r.announcement)
        = (res.filterMap fun r => announcementIssueFor r.announcement) ++ structural) ∧
    detectPotentialIssues res (some c)
      = pairDedupSpec (scanContainerForIssues c
          (res.filterMap fun r => announcementIssueFor r.announcement)) ∧
    ((detectPotentialIssues res (some c)).map pairOf).Nodup :=
  detect_dedup_core res c

/-- Content-bearing element as the claim reads it: paragraphs, headings of
any level, or forms. -/
def claimContentBearing (n : Node) : Bool :=
  tagOf n = "p" || isHeadingTag n || tagOf n = "form"

/-- A container holding three `h3` headings and no main landmark. -/
def threeH3Doc : Node :=
  .elem "div" []
    [.elem "h3" [] [.text "A"], .elem "h3" [] [.text "B"], .elem "h3" [] [.text "C"]]

/-- C2, claim as stated, is false: this container has no main-landmark
element and more than 2 content-bearing elements in the claim's sense
(headings of any level), yet the scanner emits no `missing_main` issue —
the code counts only `p`, `h1`, `h2` and `form` elements. -/
theorem C2_counterexample :
    (querySel threeH3Doc isMainLandmark).isNone = true ∧
    2 < (queryAll threeH3Doc claimContentBearing).length ∧
    (scanContainerForIssues threeH3Doc []).all
      (fun i => i.type ≠ "missing_main") = true := by
  exact ⟨by decide, by decide, by decide⟩

/-- C2 (amended): the scanner emits a `missing_main` issue iff the container
has no main-landmark element and holds more than 2 content-bearing elements,
where content-bearing means `p`, `h1`, `h2` or `form` elements (headings of
level 3–6 are not counted); the emitted issue has severity warning. -/
theorem C2_missing_main_amended (c : Node) :
    ((scanContainerForIssues c []).any (fun i => i.type = "missing_main")
      = ((querySel c isMainLandmark).isNone
          && decide (2 < (queryAll c isContentTag).length))) ∧
    (scanContainerForIssues c []).all
      (fun i => !(decide (i.type = "missing_main"))
        || (decide (i.severity = "warning")
            && decide (i.description
              = "No main landmark - screen reader users cannot skip to main content")))
      = true := by
  have hmm : ∀ i ∈ scanContainerForIssues c [], i.type = "missing_main" → i = mainIssue := by
    intro i hi htype
    rcases mem_scan.mp hi with h | h | h | h | h | h | h
    · rcases mem_imgAltCheck _ _ _ h with h' | h'
      · exact absurd h' (List.not_mem_nil i)
      · have ht' := h'.1
        rw [htype] at ht'
        exact absurd ht' (by decide)
    · have ht' := (mem_iconButtonIssues h).1
      rw [htype] at ht'
      exact absurd ht' (by decide)
    · have ht' := (mem_emptyLinkIssues h).1
      rw [htype] at ht'
      exact absurd ht' (by decide)
    · have ht' := (mem_fakeButtonIssues h).1
      rw [htype] at ht'
      exact absurd ht' (by decide)
    · exact (mem_missingMainIssues_iff.mp h).2.2
    · rw [headingSkipIssues] at h
      rcases mem_headingSkipFold _ _ _ h with h' | h'
      · exact absurd h' (List.not_mem_nil i)
      · have ht' := h'.1
        rw [htype] at ht'
        exact absurd ht' (by decide)
    · have ht' := (mem_unlabeledInputIssues h).1
      rw [htype] at ht'
      exact absurd ht' (by decide)
  constructor
  · rw [Bool.eq_iff_iff, List.any_eq_true, Bool.and_eq_true, decide_eq_true_eq]
    constructor
    · rintro ⟨i, hi, hp⟩
      rw [decide_eq_true_eq] at hp
      have := hmm i hi hp
      subst this
      have hmem : mainIssue ∈ scanContainerForIssues c [] := hi
      have h5 : mainIssue ∈ missingMainIssues c ∨ False := by
        rcases mem_scan.mp hmem with h | h | h | h | h | h | h
        · rcases mem_imgAltCheck _ _ _ h with h' | h'
          · exact absurd h' (List.not_mem_nil _)
          · exact absurd h'.1 (by decide)
        · exact absurd (mem_iconButtonIssues h).1 (by decide)
        · exact absurd (mem_emptyLinkIssues h).1 (by decide)
        · exact absurd (mem_fakeButtonIssues h).1 (by decide)
        · exact Or.inl h
        · rw [headingSkipIssues] at h
          rcases mem_headingSkipFold _ _ _ h with h' | h'
          · exact absurd h' (List.not_mem_nil _)
          · exact absurd h'.1 (by decide)
        · exact absurd (mem_unlabeledInputIssues h).1 (by decide)
      rcases h5 with h5 | h5
      · obtain ⟨h1, h2, _⟩ := mem_missingMainIssues_iff.mp h5
        exact ⟨h1, h2⟩
      · exact absurd h5 not_false
    · rintro ⟨h1, h2⟩
      refine ⟨mainIssue, ?_, by decide⟩
      exact mem_scan.mpr (Or.inr (Or.inr (Or.inr (Or.inr (Or.inl
        (mem_missingMainIssues_iff.mpr ⟨h1, h2, rfl⟩))))))
  · rw [List.all_eq_true]
    intro i hi
    by_cases ht : i.type = "missing_main"
    · have := hmm i hi ht
      subst this
      decide
    · simp [ht]

lemma imgAltCheck_stable (imgs : List Node) :
    ∀ issues, issues.any isMissingAlt = true → imgAltCheck imgs issues = issues := by
  induction imgs with
  | nil => intro issues _; rfl
  | cons n rest ih =>
    intro issues h
    rw [show imgAltCheck (n :: rest) issues
        = imgAltCheck rest (if issues.any isMissingAlt then issues else issues ++ [imgIssue n])
      from rfl, if_pos h]
    exact ih issues h

lemma imgAltCheck_countP (imgs : List Node) :
    ∀ issues, (imgAltCheck imgs issues).countP isMissingAlt
      ≤ issues.countP isMissingAlt + 1 := by
  induction imgs with
  | nil => intro issues; exact Nat.le_succ _
  | cons n rest ih =>
    intro issues
    rw [show imgAltCheck (n :: rest) issues
        = imgAltCheck rest (if issues.any isMissingAlt then issues else issues ++ [imgIssue n])
      from rfl]
    by_cases hc : issues.any isMissingAlt = true
    · rw [if_pos hc]
      exact ih issues
    · rw [if_neg hc]
      have hstable : imgAltCheck rest (issues ++ [imgIssue n]) = issues ++ [imgIssue n] := by
        apply imgAltCheck_stable
        rw [List.any_append]
        have : [imgIssue n].any isMissingAlt = true := by
          simp [imgIssue, isMissingAlt]
        rw [this, Bool.or_true]
      rw [hstable, List.countP_append]
      have : List.countP isMissingAlt [imgIssue n] = 1 := by
        simp [imgIssue, isMissingAlt]
      rw [this]

lemma countP_zero_of_types {l : List Issue} (t : String)
    (h : ∀ i ∈ l, i.type = t) (ht : t ≠ "missing_alt") :
    l.countP isMissingAlt = 0 := by
  rw [List.countP_eq_zero]
  intro i hi
  simp only [isMissingAlt, decide_eq_true_eq]
  rw [h i hi]
  exact ht

lemma scan_countP (c : Node) (issues0 : List Issue) :
    (scanContainerForIssues c issues0).countP isMissingAlt
      = (imgAltCheck (queryAll c isImgNoAlt) issues0).countP isMissingAlt := by
  have h2 := countP_zero_of_types "unlabeled_icon_button"
    (fun i hi => (mem_iconButtonIssues hi).1) (by decide) (l := iconButtonIssues c)
  have h3 := countP_zero_of_types "empty_link"
    (fun i hi => (mem_emptyLinkIssues hi).1) (by decide) (l := emptyLinkIssues c)
  have h4 := countP_zero_of_types "fake_button"
    (fun i hi => (mem_fakeButtonIssues hi).1) (by decide) (l := fakeButtonIssues c)
  have h5 : (missingMainIssues c).countP isMissingAlt = 0 := by
    apply countP_zero_of_types "missing_main" ?_ (by decide)
    intro i hi
    rw [(mem_missingMainIssues_iff.mp hi).2.2]
    rfl
  have h6 : (headingSkipIssues c).countP isMissingAlt = 0 := by
    apply countP_zero_of_types "heading_skip" ?_ (by decide)
    intro i hi
    rw [headingSkipIssues] at hi
    rcases mem_headingSkipFold _ _ _ hi with h' | h'
    · exact absurd h' (List.not_mem_nil i)
    · exact h'.1
  have h7 := countP_zero_of_types "unlabeled_input"
    (fun i hi => (mem_unlabeledInputIssues hi).1) (by decide) (l := unlabeledInputIssues c)
  simp only [scanContainerForIssues, List.countP_append, h2, h3, h4, h5, h6, h7,
    Nat.add_zero]

/-- The single image of the missing-alt scenario. -/
def bareImg : Node :=
  .elem "img" [("src", "x.jpg")] []

/-- A container holding one image without an alt attribute. -/
def bareImgDoc : Node :=
  .elem "div" [] [bareImg]

/-- C7: the structural images check emits at most one `missing_alt` issue per
scan however many images lack an alt attribute, and on a container with a
single alt-less image the scan yields exactly one issue: type `missing_alt`,
severity error. -/
theorem C7_missing_alt_once :
    (∀ (c : Node) (issues0 : List Issue),
      (scanContainerForIssues c issues0).countP isMissingAlt
        ≤ issues0.countP isMissingAlt + 1) ∧
    scanContainerForIssues bareImgDoc [] = [imgIssue bareImg] ∧
    (imgIssue bareImg).type = "missing_alt" ∧ (imgIssue bareImg).severity = "error" := by
  refine ⟨?_, rfl, rfl, rfl⟩
  intro c issues0
  rw [scan_countP]
  exact imgAltCheck_countP _ issues0

lemma mem_dedupAux : ∀ (l : List Issue) (seen : List String) (i : Issue),
    i ∈ dedupAux l seen → i ∈ l := by
  intro l
  induction l with
  | nil => intro seen i h; exact absurd h (List.not_mem_nil i)
  | cons j js ih =>
    intro seen i h
    simp only [dedupAux] at h
    by_cases hc : seen.contains (issueKey j) = true
    · rw [if_pos hc] at h
      exact List.mem_cons_of_mem _ (ih _ _ h)
    · rw [if_neg hc] at h
      rcases List.mem_cons.mp h with rfl | h'
      · exact List.mem_cons_self _ _
      · exact List.mem_cons_of_mem _ (ih _ _ h')

lemma announcementIssueFor_image {s : String}
    (h : strTrim (strToLower s) = "image" ∨ strTrim (strToLower s) = "img") :
    announcementIssueFor s
      = some ⟨"missing_alt", "Image has no alt text - screen readers cannot describe it",
          "error", some s, none⟩ := by
  rcases h with h | h <;> simp [announcementIssueFor, h]

lemma ann_MA_desc (res : List AnnouncementRecord) :
    ∀ j ∈ (res.filterMap fun r => announcementIssueFor r.announcement),
      isMissingAlt j = true →
      j.description = "Image has no alt text - screen readers cannot describe it" := by
  intro j hj hMA
  obtain ⟨r, _, hr⟩ := List.mem_filterMap.mp hj
  have hpair := (announcementIssueFor_some hr).1
  simp only [isMissingAlt, decide_eq_true_eq] at hMA
  have hgen : ∀ p ∈ annPairs, p.1 = "missing_alt"
      → p.2 = "Image has no alt text - screen readers cannot describe it" := by decide
  exact hgen _ hpair hMA

lemma scan_MA_desc (c : Node) (ann : List Issue)
    (hannd : ∀ j ∈ ann, isMissingAlt j = true →
      j.description = "Image has no alt text - screen readers cannot describe it") :
    ∀ i ∈ scanContainerForIssues c ann, isMissingAlt i = true →
      i.description = (if ann.any isMissingAlt then
          "Image has no alt text - screen readers cannot describe it"
        else "Image missing alt attribute") := by
  intro i hi hMA
  have htype : i.type = "missing_alt" := by simpa [isMissingAlt] using hMA
  rcases mem_scan.mp hi with h | h | h | h | h | h | h
  · by_cases hany : ann.any isMissingAlt = true
    · rw [if_pos hany]
      rw [imgAltCheck_stable _ _ hany] at h
      exact hannd i h hMA
    · rw [if_neg hany]
      rcases mem_imgAltCheck _ _ _ h with h' | h'
      · exact absurd (List.any_eq_true.mpr ⟨i, h', hMA⟩) hany
      · exact h'.2.2
  · have ht' := (mem_iconButtonIssues h).1
    rw [htype] at ht'
    exact absurd ht' (by decide)
  · have ht' := (mem_emptyLinkIssues h).1
    rw [htype] at ht'
    exact absurd ht' (by decide)
  · have ht' := (mem_fakeButtonIssues h).1
    rw [htype] at ht'
    exact absurd ht' (by decide)
  · have ht' := congrArg Issue.type (mem_missingMainIssues_iff.mp h).2.2
    rw [htype] at ht'
    exact absurd ht' (by decide)
  · rw [headingSkipIssues] at h
    rcases mem_headingSkipFold _ _ _ h with h' | h'
    · exact absurd h' (List.not_mem_nil i)
    · have ht' := h'.1
      rw [htype] at ht'
      exact absurd ht' (by decide)
  · have ht' := (mem_unlabeledInputIssues h).1
    rw [htype] at ht'
    exact absurd ht' (by decide)

lemma countP_MA_le_one (D : List Issue) (hN : (D.map pairOf).Nodup) (d : String)
    (hsame : ∀ i ∈ D, isMissingAlt i = true → i.description = d) :
    D.countP isMissingAlt ≤ 1 := by
  have hpair : ∀ i ∈ D, isMissingAlt i = true → pairOf i = ("missing_alt", d) := by
    intro i hi hp
    have hd := hsame i hi hp
    simp only [isMissingAlt, decide_eq_true_eq] at hp
    simp [pairOf, hp, hd]
  clear hsame
  induction D with
  | nil => simp
  | cons a as ih =>
    rw [List.map_cons, List.nodup_cons] at hN
    by_cases hp : isMissingAlt a = true
    · rw [List.countP_cons_of_pos _ _ hp]
      have hzero : as.countP isMissingAlt = 0 := by
        rw [List.countP_eq_zero]
        intro b hb hpb
        have hb' : pairOf b = ("missing_alt", d) :=
          hpair b (List.mem_cons_of_mem _ hb) hpb
        have ha' : pairOf a = ("missing_alt", d) :=
          hpair a (List.mem_cons_self _ _) hp
        exact hN.1 (by rw [ha', ← hb']; exact List.mem_map_of_mem pairOf hb)
      rw [hzero]
    · rw [List.countP_cons_of_neg _ _ hp]
      exact ih hN.2 (fun i hi => hpair i (List.mem_cons_of_mem _ hi))

/-- C9: the combined output of `detectPotentialIssues` never holds more than
one `missing_alt` issue, and when some announcement normalizes to the bare
role `image` or `img`, the structural representative (description
`Image missing alt attribute`) is suppressed entirely — the announcement-side
issue occupies the slot first. -/
theorem C9_missing_alt_suppression (res : List AnnouncementRecord) (c : Node) :
    (detectPotentialIssues res (some c)).countP isMissingAlt ≤ 1 ∧
    ((∃ r ∈ res, strTrim (strToLower r.announcement) = "image"
        ∨ strTrim (strToLower r.announcement) = "img") →
      ∀ i ∈ detectPotentialIssues res (some c),
        ¬(i.type = "missing_alt" ∧ i.description = "Image missing alt attribute")) := by
  obtain ⟨_, _, hnodup⟩ := detect_dedup_core res c
  have hdet : detectPotentialIssues res (some c)
      = dedupIssues (scanContainerForIssues c
          (res.filterMap fun r => announcementIssueFor r.announcement)) := rfl
  have hmem : ∀ i ∈ detectPotentialIssues res (some c),
      i ∈ scanContainerForIssues c
        (res.filterMap fun r => announcementIssueFor r.announcement) := by
    rw [hdet]
    exact fun i hi => mem_dedupAux _ _ _ hi
  have hdesc := scan_MA_desc c _ (ann_MA_desc res)
  constructor
  · exact countP_MA_le_one _ hnodup _
      (fun i hi hp => hdesc i (hmem i hi) hp)
  · rintro ⟨r, hr, himg⟩ i hi ⟨htype, hD2⟩
    have hmemann : (⟨"missing_alt",
        "Image has no alt text - screen readers cannot describe it",
        "error", some r.announcement, none⟩ : Issue)
        ∈ (res.filterMap fun rr => announcementIssueFor rr.announcement) :=
      List.mem_filterMap.mpr ⟨r, hr, announcementIssueFor_image himg⟩
    have hany : (res.filterMap fun rr => announcementIssueFor rr.announcement).any
        isMissingAlt = true :=
      List.any_eq_true.mpr ⟨_, hmemann, by simp [isMissingAlt]⟩
    have hd1 := hdesc i (hmem i hi) (by simp [isMissingAlt, htype])
    rw [if_pos hany, hD2] at hd1
    exact absurd hd1 (by decide)

/-- Modelled from the spec: the bare-role-name to issue-type mapping of the
AnnouncementIssueMatcher (button, link, image/img, textbox/edit, checkbox). -/
def specAnnouncementType (n : String) : Option String :=
  if n = "button" then some "unlabeled_button"
  else if n = "link" then some "empty_link"
  else if n = "image" then some "missing_alt"
  else if n = "img" then some "missing_alt"
  else if n = "textbox" then some "unlabeled_input"
  else if n = "edit" then some "unlabeled_input"
  else if n = "checkbox" then some "unlabeled_checkbox"
  else none

/-- C6, claim as stated, is false: the announcement `constructor` does not
normalize to any of the seven bare role names, yet the program's
`announcementIssues[lower]` lookup hits the inherited
`Object.prototype.constructor` (truthy) and pushes an issue — the claimed
`only if` direction fails. -/
theorem C6_counterexample :
    (announcementIssueFor "constructor").isSome = true ∧
    strTrim (strToLower "constructor")
      ∉ ["button", "link", "image", "img", "textbox", "edit", "checkbox"] := by
  exact ⟨rfl, by decide⟩

set_option maxHeartbeats 2000000 in
/-- C6 (amended): the matcher emits an issue iff the trimmed lower-cased
announcement equals one of the seven bare role names or one of the
all-lowercase inherited `Object.prototype` property names `constructor` and
`__proto__`.  For the seven role names the type mapping is exactly as the
claim states; for the two prototype-chain names the pushed issue is
degenerate, carrying no type or description (modelled as `undefined`).
Every emitted issue has severity error, and `button, submit` still emits
nothing. -/
theorem C6_announcement_matcher_amended (s : String) :
    ((announcementIssueFor s).map (·.type)
      = if strTrim (strToLower s) = "constructor" ∨ strTrim (strToLower s) = "__proto__"
        then some "undefined"
        else specAnnouncementType (strTrim (strToLower s))) ∧
    ((announcementIssueFor s).isSome = true
      ↔ (strTrim (strToLower s)
          ∈ ["button", "link", "image", "img", "textbox", "edit", "checkbox"]
        ∨ strTrim (strToLower s) = "constructor"
        ∨ strTrim (strToLower s) = "__proto__")) ∧
    (announcementIssueFor s).all (fun i => i.severity = "error") = true ∧
    announcementIssueFor "button, submit" = none := by
  refine ⟨?_, ?_, ?_, rfl⟩ <;>
    · simp only [announcementIssueFor, specAnnouncementType]
      generalize strTrim (strToLower s) = n
      split_ifs <;> simp_all

/-- Modelled from the spec reading of CategoryClassifier: lower-case the
phrase and test the pattern lists in the fixed order landmark, heading,
interactive, form under substring containment; first hit wins, default
`content`. -/
def specFirstCategory (s : String) : String :=
  if (landmarkPatterns.any fun p => strIncludes (strToLower s) p) then "landmark"
  else if (headingPatterns.any fun p => strIncludes (strToLower s) p) then "heading"
  else if (interactivePatterns.any fun p => strIncludes (strToLower s) p) then "interactive"
  else if (formPatterns.any fun p => strIncludes (strToLower s) p) then "form"
  else "content"

/-- C10: `getElementCategory` is total with range
{landmark, heading, interactive, form, content}, tests the pattern lists in
the fixed source order under substring containment (it coincides with the
spec-order reference classifier), a phrase containing `main` is always
`landmark` (even when it also contains an interactive keyword), and keywords
match as substrings of longer words. -/
theorem C10_category_classifier (s : String) :
    getElementCategory s = specFirstCategory s ∧
    getElementCategory s ∈ ["landmark", "heading", "interactive", "form", "content"] ∧
    (strIncludes (strToLower s) "main" = true → getElementCategory s = "landmark") ∧
    getElementCategory "main button" = "landmark" ∧
    getElementCategory "remaining text" = "landmark" := by
  have hmain : getElementCategory s = specFirstCategory s := by
    simp only [getElementCategory, specFirstCategory]
    by_cases h1 : (landmarkPatterns.any fun p => strIncludes (strToLower s) p) = true
    · have hf : CATEGORY_PATTERNS.find?
          (fun cp => cp.2.any fun p => strIncludes (strToLower s) p)
          = some ("landmark", landmarkPatterns) :=
        List.find?_cons_of_pos _ h1
      rw [hf, if_pos h1]
    · have hf1 : CATEGORY_PATTERNS.find?
          (fun cp => cp.2.any fun p => strIncludes (strToLower s) p)
          = List.find? (fun cp => cp.2.any fun p => strIncludes (strToLower s) p)
              [("heading", headingPatterns), ("interactive", interactivePatterns),
               ("form", formPatterns)] :=
        List.find?_cons_of_neg _ h1
      rw [hf1, if_neg h1]
      by_cases h2 : (headingPatterns.any fun p => strIncludes (strToLower s) p) = true
      · have hf2 : List.find? (fun cp => cp.2.any fun p => strIncludes (strToLower s) p)
            [("heading", headingPatterns), ("interactive", interactivePatterns),
             ("form", formPatterns)]
            = some ("heading", headingPatterns) :=
          List.find?_cons_of_pos _ h2
        rw [hf2, if_pos h2]
      · have hf2 : List.find? (fun cp => cp.2.any fun p => strIncludes (strToLower s) p)
            [("heading", headingPatterns), ("interactive", interactivePatterns),
             ("form", formPatterns)]
            = List.find? (fun cp => cp.2.any fun p => strIncludes (strToLower s) p)
                [("interactive", interactivePatterns), ("form", formPatterns)] :=
          List.find?_cons_of_neg _ h2
        rw [hf2, if_neg h2]
        by_cases h3 : (interactivePatterns.any fun p => strIncludes (strToLower s) p) = true
        · have hf3 : List.find? (fun cp => cp.2.any fun p => strIncludes (strToLower s) p)
              [("interactive", interactivePatterns), ("form", formPatterns)]
              = some ("interactive", interactivePatterns) :=
            List.find?_cons_of_pos _ h3
          rw [hf3, if_pos h3]
        · have hf3 : List.find? (fun cp => cp.2.any fun p => strIncludes (strToLower s) p)
              [("interactive", interactivePatterns), ("form", formPatterns)]
              = List.find? (fun cp => cp.2.any fun p => strIncludes (strToLower s) p)
                  [("form", formPatterns)] :=
            List.find?_cons_of_neg _ h3
          rw [hf3, if_neg h3]
          by_cases h4 : (formPatterns.any fun p => strIncludes (strToLower s) p) = true
          · have hf4 : List.find? (fun cp => cp.2.any fun p => strIncludes (strToLower s) p)
                [("form", formPatterns)] = some ("form", formPatterns) :=
              List.find?_cons_of_pos _ h4
            rw [hf4, if_pos h4]
          · have hf4 : List.find? (fun cp => cp.2.any fun p => strIncludes (strToLower s) p)
                [("form", formPatterns)]
                = List.find? (fun cp => cp.2.any fun p => strIncludes (strToLower s) p) [] :=
              List.find?_cons_of_neg _ h4
            rw [hf4, if_neg h4]
            rfl
  refine ⟨hmain, ?_, ?_, by decide, by decide⟩
  · rw [hmain]
    unfold specFirstCategory
    split_ifs <;> simp
  · intro hincl
    rw [hmain]
    unfold specFirstCategory
    rw [if_pos]
    exact List.any_eq_true.mpr ⟨"main", by decide, hincl⟩

theorem C10_category_classifier_witness :
    strIncludes (strToLower "main button") "main" = true ∧
    getElementCategory "main button" = "landmark" :=
  ⟨by decide, (C10_category_classifier "main button").2.2.1 (by decide)⟩

/-- An analysis result holding one bare `image` announcement. -/
def imgAnnRes : List AnnouncementRecord :=
  [⟨0, "image", "interactive", none⟩]

theorem C9_missing_alt_suppression_witness :
    (detectPotentialIssues imgAnnRes (some bareImgDoc)).countP isMissingAlt ≤ 1 ∧
    (∀ i ∈ detectPotentialIssues imgAnnRes (some bareImgDoc),
      ¬(i.type = "missing_alt" ∧ i.description = "Image missing alt attribute")) :=
  ⟨(C9_missing_alt_suppression imgAnnRes bareImgDoc).1,
   (C9_missing_alt_suppression imgAnnRes bareImgDoc).2
     ⟨⟨0, "image", "interactive", none⟩, List.mem_cons_self _ _, Or.inl (by decide)⟩⟩

end SRV
